import Mathlib

/-!
Verification development for the task-cli repository (python).

The embedding models `src/models.py`, `src/storage.py` and `src/repository.py`:
  * `Priority`, `Status`, `Task` mirror the dataclasses/enums of `models.py`.
  * Python `dict[int, Task]` is modelled as an insertion-ordered association
    list (`TaskMap`) with the dict operations used by the code
    (`dget` = `dict.get` / `[]`, `dinsert` = `dict[k] = v`,
    `derase` = `del dict[k]`, `maxKey` = `max(keys, default=0)`).
  * The JSON text layer is modelled at the document level: `json.dump` /
    `json.loads` belong to Python's standard library, so the file is a
    `FileState` which is absent, empty, malformed (rejected by `json.loads`)
    or a parsed JSON document (`Json`).  Everything the repository itself
    does to the data — building the serializable dict in `JsonStorage.save`,
    and rebuilding `Task` objects field by field in `JsonStorage.load` — is
    embedded directly, including `str(task_id)` / `int(task_id_str)` for the
    keys and `datetime.isoformat` / `datetime.fromisoformat` for timestamps.
  * Python exceptions are modelled by `PyErr`; fallible code returns `Except`.
-/

namespace TaskCli

/-- `Priority` enum of `models.py` (`low` / `medium` / `high`). -/
inductive Priority
  | low
  | medium
  | high
deriving DecidableEq, Repr

/-- `Priority.value`: the string payload of each enum member. -/
def Priority.value : Priority → String
  | .low => "low"
  | .medium => "medium"
  | .high => "high"

/-- `Priority(s)`: enum lookup by value, `none` when no member has value `s`
(Python raises `ValueError` in that case; the caller turns `none` into it). -/
def Priority.ofValue (s : String) : Option Priority :=
  if s = "low" then some .low
  else if s = "medium" then some .medium
  else if s = "high" then some .high
  else none

/-- `Status` enum of `models.py` (`pending` / `done`). -/
inductive Status
  | pending
  | done
deriving DecidableEq, Repr

/-- `Status.value`: the string payload of each enum member. -/
def Status.value : Status → String
  | .pending => "pending"
  | .done => "done"

/-- `Status(s)`: enum lookup by value. -/
def Status.ofValue (s : String) : Option Status :=
  if s = "pending" then some .pending
  else if s = "done" then some .done
  else none

/-- Naive `datetime.datetime` (no timezone: the code only uses
`datetime.now()`), with Python's microsecond resolution. -/
structure DateTime where
  year : Nat
  month : Nat
  day : Nat
  hour : Nat
  minute : Nat
  second : Nat
  microsecond : Nat
deriving DecidableEq, Repr

/-- Field ranges every Python `datetime` object satisfies by construction
(`datetime.__new__` validates them; `day` is further restricted by the
calendar, which is not needed here). -/
def DateTime.valid (d : DateTime) : Prop :=
  1 ≤ d.year ∧ d.year ≤ 9999 ∧ 1 ≤ d.month ∧ d.month ≤ 12 ∧
  1 ≤ d.day ∧ d.day ≤ 31 ∧ d.hour ≤ 23 ∧ d.minute ≤ 59 ∧
  d.second ≤ 59 ∧ d.microsecond ≤ 999999

instance (d : DateTime) : Decidable d.valid := by
  unfold DateTime.valid; infer_instance

/-- `Task` dataclass of `models.py`, field order as in the source. -/
structure Task where
  title : String
  status : Status := .pending
  priority : Priority := .medium
  id : Option Int := none
  created_at : DateTime
deriving DecidableEq, Repr

/-- A Python `dict[int, Task]`: insertion-ordered key/value pairs.  Real
dicts have unique keys; that invariant is a hypothesis where needed and is
re-established for every map produced by `JsonStorage.load`. -/
abbrev TaskMap := List (Int × Task)

/-- `list(d.keys())` in iteration order. -/
def keys (m : TaskMap) : List Int := m.map Prod.fst

/-- `d.get(k)` / `d[k]`: first entry with the key (the only one for a real
dict). -/
def dget (m : TaskMap) (k : Int) : Option Task :=
  match m with
  | [] => none
  | (k', t) :: rest => if k = k' then some t else dget rest k

/-- `d[k] = v`: replace in place when the key exists, else append (Python
dicts keep the position of an existing key and append new keys). -/
def dinsert (m : TaskMap) (k : Int) (t : Task) : TaskMap :=
  match m with
  | [] => [(k, t)]
  | (k', t') :: rest => if k = k' then (k, t) :: rest else (k', t') :: dinsert rest k t

/-- `del d[k]`: drop the entry with the key. -/
def derase (m : TaskMap) (k : Int) : TaskMap :=
  match m with
  | [] => []
  | (k', t') :: rest => if k = k' then rest else (k', t') :: derase rest k

/-- `max(d.keys(), default=0)`. -/
def maxKey (m : TaskMap) : Int :=
  match keys m with
  | [] => 0
  | k :: ks => ks.foldl max k

/-- The data-model invariant of §3 of the design: the collection is a
mapping from id to task, so every entry is stored under its own id. -/
def IdsMatch (m : TaskMap) : Prop := ∀ kt ∈ m, kt.2.id = some kt.1

/-- Every `created_at` in the map is a real Python datetime (always true of
maps built by the program, since `datetime.now()` and `fromisoformat` only
produce valid datetimes). -/
def AllValid (m : TaskMap) : Prop := ∀ kt ∈ m, DateTime.valid kt.2.created_at

instance (m : TaskMap) : Decidable (IdsMatch m) := by
  unfold IdsMatch; infer_instance

instance (m : TaskMap) : Decidable (AllValid m) := by
  unfold AllValid; infer_instance

/-- Character for a decimal digit. -/
def digitChar (d : Nat) : Char := Char.ofNat (48 + d)

/-- Numeric value of a digit character. -/
def digitVal (c : Char) : Nat := c.toNat - 48

/-- Is `c` one of `'0'`–`'9'`? -/
def isDigitChar (c : Char) : Bool := 48 ≤ c.toNat && c.toNat ≤ 57

/-- Most-significant-first decimal digits, fuel-driven so it reduces by
`rfl` (the fuel `n + 1` always suffices, see `natDigitsFuel_spec`). -/
def natDigitsFuel : Nat → Nat → List Nat
  | 0, _ => []
  | fuel + 1, n => if n < 10 then [n] else natDigitsFuel fuel (n / 10) ++ [n % 10]

/-- Decimal digits of `n`, most significant first. -/
def natDigits (n : Nat) : List Nat := natDigitsFuel (n + 1) n

/-- Characters of Python `str(n)` for a natural number. -/
def natStrChars (n : Nat) : List Char := (natDigits n).map digitChar

/-- Python `str(k)` for an `int`. -/
def pyStrInt (k : Int) : String :=
  if k < 0 then String.mk ('-' :: natStrChars k.natAbs) else String.mk (natStrChars k.natAbs)

/-- Digits-only parse (the fragment of Python `int(s)` exercised by the
round-trip: canonical `str(int)` output has no sign prefix except `'-'`,
no whitespace and no underscores). -/
def parseNatChars (cs : List Char) : Option Nat :=
  if cs.isEmpty then none
  else if cs.all isDigitChar then
    some (cs.foldl (fun a c => 10 * a + digitVal c) 0)
  else none

/-- Python `int(s)` on canonical integer strings, character level. -/
def pyIntOfChars (cs : List Char) : Option Int :=
  match cs with
  | [] => none
  | c :: rest =>
    if c = '-' then (parseNatChars rest).map (fun n => -(n : Int))
    else (parseNatChars (c :: rest)).map (fun n => (n : Int))

/-- Python `int(s)` on canonical integer strings. -/
def pyIntOfString (s : String) : Option Int := pyIntOfChars s.data

/-- Two decimal digit characters to a number. -/
def d2 (a b : Char) : Option Nat :=
  if isDigitChar a && isDigitChar b then some (10 * digitVal a + digitVal b)
  else none

/-- Four decimal digit characters to a number. -/
def d4 (a b c e : Char) : Option Nat :=
  if isDigitChar a && isDigitChar b && isDigitChar c && isDigitChar e then
    some (1000 * digitVal a + 100 * digitVal b + 10 * digitVal c + digitVal e)
  else none

/-- Six decimal digit characters to a number. -/
def d6 (a b c e f g : Char) : Option Nat :=
  if isDigitChar a && isDigitChar b && isDigitChar c && isDigitChar e
      && isDigitChar f && isDigitChar g then
    some (100000 * digitVal a + 10000 * digitVal b + 1000 * digitVal c
      + 100 * digitVal e + 10 * digitVal f + digitVal g)
  else none

/-- Characters of `datetime.isoformat()`: zero-padded fields, `'T'`
separator, fractional part present exactly when `microsecond ≠ 0`. -/
def DateTime.isoformatChars (d : DateTime) : List Char :=
  digitChar (d.year / 1000 % 10) :: digitChar (d.year / 100 % 10) ::
  digitChar (d.year / 10 % 10) :: digitChar (d.year % 10) ::
  '-' :: digitChar (d.month / 10 % 10) :: digitChar (d.month % 10) ::
  '-' :: digitChar (d.day / 10 % 10) :: digitChar (d.day % 10) ::
  'T' :: digitChar (d.hour / 10 % 10) :: digitChar (d.hour % 10) ::
  ':' :: digitChar (d.minute / 10 % 10) :: digitChar (d.minute % 10) ::
  ':' :: digitChar (d.second / 10 % 10) :: digitChar (d.second % 10) ::
  (if d.microsecond = 0 then [] else
    '.' :: digitChar (d.microsecond / 100000 % 10) ::
    digitChar (d.microsecond / 10000 % 10) ::
    digitChar (d.microsecond / 1000 % 10) ::
    digitChar (d.microsecond / 100 % 10) ::
    digitChar (d.microsecond / 10 % 10) ::
    digitChar (d.microsecond % 10) :: [])

/-- `datetime.isoformat()`. -/
def DateTime.isoformat (d : DateTime) : String := String.mk d.isoformatChars

/-- `datetime.fromisoformat` on the characters of a canonical
`isoformat()` string. -/
def fromisoChars (cs : List Char) : Option DateTime :=
  match cs with
  | y1 :: y2 :: y3 :: y4 :: s1 :: mo1 :: mo2 :: s2 :: dd1 :: dd2 :: s3 ::
      h1 :: h2 :: s4 :: mi1 :: mi2 :: s5 :: se1 :: se2 :: rest =>
    if s1 = '-' && s2 = '-' && s3 = 'T' && s4 = ':' && s5 = ':' then
      match d4 y1 y2 y3 y4, d2 mo1 mo2, d2 dd1 dd2, d2 h1 h2, d2 mi1 mi2,
          d2 se1 se2 with
      | some y, some mo, some dd, some hh, some mi, some se =>
        match rest with
        | [] => some ⟨y, mo, dd, hh, mi, se, 0⟩
        | s6 :: u1 :: u2 :: u3 :: u4 :: u5 :: u6 :: [] =>
          if s6 = '.' then
            match d6 u1 u2 u3 u4 u5 u6 with
            | some u => some ⟨y, mo, dd, hh, mi, se, u⟩
            | none => none
          else none
        | _ => none
      | _, _, _, _, _, _ => none
    else none
  | _ => none

/-- `datetime.fromisoformat` on canonical `isoformat()` output. -/
def DateTime.fromisoformat (s : String) : Option DateTime := fromisoChars s.data

/-- Parsed JSON documents (the subset the program reads and writes).
`obj` is a dict produced by `json.loads`, so its keys are unique. -/
inductive Json
  | null
  | str (s : String)
  | int (n : Int)
  | obj (fields : List (String × Json))

/-- `d[name]` on a parsed JSON object: the value stored under `name`. -/
def getField (fields : List (String × Json)) (name : String) : Option Json :=
  match fields with
  | [] => none
  | (n, v) :: rest => if n = name then some v else getField rest name

/-- Python exceptions raised by the storage/repository layer, by class. -/
inductive PyErr
  | jsonDecodeError                -- json.JSONDecodeError from json.loads
  | keyError (field : String)      -- KeyError from task_data["…"]
  | valueError (msg : String)      -- ValueError (enum lookup, int(), repository checks)
  | typeError (msg : String)       -- TypeError
  | attributeError (msg : String)  -- AttributeError (.items() on a non-dict)
deriving DecidableEq, Repr

/-- The Python exception class of an error (`type(e).__name__`). -/
def PyErr.kindName : PyErr → String
  | .jsonDecodeError => "JSONDecodeError"
  | .keyError _ => "KeyError"
  | .valueError _ => "ValueError"
  | .typeError _ => "TypeError"
  | .attributeError _ => "AttributeError"

/-- Content of the backing file, partitioned the way `JsonStorage.load`
observes it: whitespace-only content, content `json.loads` rejects, or a
parsed document.  The byte-level encoding is Python's `json` module, not
code of this repository. -/
inductive Content
  | emptyContent
  | malformed
  | value (j : Json)

/-- The backing file: missing, or present with some content. -/
inductive FileState
  | absent
  | present (c : Content)

/-- The serializable dict `JsonStorage.save` builds for one task:
`{"id": task.id, "title": task.title, "status": task.status.value,
"priority": task.priority.value, "created_at": task.created_at.isoformat()}`
(an unset id is serialized as JSON `null`). -/
def Task.serialize (t : Task) : Json :=
  .obj [("id", match t.id with | some n => .int n | none => .null),
        ("title", .str t.title),
        ("status", .str t.status.value),
        ("priority", .str t.priority.value),
        ("created_at", .str t.created_at.isoformat)]

/-- The top-level serializable dict: `{str(task_id): {...} for task_id, task
in tasks.items()}`, in iteration order. -/
def serializeTasks (m : TaskMap) : Json :=
  .obj (m.map (fun kt => (pyStrInt kt.1, Task.serialize kt.2)))

/-- `JsonStorage.save(tasks)`: the file is rewritten wholesale with the
serialized collection. -/
def JsonStorage.save (m : TaskMap) : FileState :=
  .present (.value (serializeTasks m))

/-- `task_data["id"]` as consumed by `Task(id=...)`.  Python's dataclass
performs no runtime type check here, so a non-integer, non-null id would
build an ill-typed `Task`; the embedding rejects that branch instead, and
no claim depends on it. -/
def decodeId (j : Json) : Except PyErr (Option Int) :=
  match j with
  | .int n => .ok (some n)
  | .null => .ok none
  | _ => .error (.typeError "id is not an int")

/-- `task_data["title"]` as consumed by `Task(title=...)` (same remark as
`decodeId` for non-string titles). -/
def decodeTitle (j : Json) : Except PyErr String :=
  match j with
  | .str s => .ok s
  | _ => .error (.typeError "title is not a str")

/-- `Status(task_data["status"])`: enum lookup by value, `ValueError` when
the value is not a member. -/
def decodeStatus (j : Json) : Except PyErr Status :=
  match j with
  | .str s =>
    match Status.ofValue s with
    | some st => .ok st
    | none => .error (.valueError (s ++ " is not a valid Status"))
  | _ => .error (.valueError "not a valid Status")

/-- `Priority(task_data["priority"])`. -/
def decodePriority (j : Json) : Except PyErr Priority :=
  match j with
  | .str s =>
    match Priority.ofValue s with
    | some p => .ok p
    | none => .error (.valueError (s ++ " is not a valid Priority"))
  | _ => .error (.valueError "not a valid Priority")

/-- `datetime.fromisoformat(task_data["created_at"])`: `TypeError` on a
non-string, `ValueError` on an unparsable string. -/
def decodeCreatedAt (j : Json) : Except PyErr DateTime :=
  match j with
  | .str s =>
    match DateTime.fromisoformat s with
    | some d => .ok d
    | none => .error (.valueError ("Invalid isoformat string: " ++ s))
  | _ => .error (.typeError "fromisoformat: argument must be str")

/-- Rebuilding one `Task` from its stored object, with the field accesses
and conversions in the argument order of the `Task(...)` call in
`JsonStorage.load`; a missing key raises `KeyError` at its access. -/
def decodeTask (j : Json) : Except PyErr Task :=
  match j with
  | .obj fields =>
    match getField fields "id" with
    | none => .error (.keyError "id")
    | some idJ =>
      match decodeId idJ with
      | .error e => .error e
      | .ok idv =>
        match getField fields "title" with
        | none => .error (.keyError "title")
        | some titleJ =>
          match decodeTitle titleJ with
          | .error e => .error e
          | .ok titlev =>
            match getField fields "status" with
            | none => .error (.keyError "status")
            | some stJ =>
              match decodeStatus stJ with
              | .error e => .error e
              | .ok stv =>
                match getField fields "priority" with
                | none => .error (.keyError "priority")
                | some prJ =>
                  match decodePriority prJ with
                  | .error e => .error e
                  | .ok prv =>
                    match getField fields "created_at" with
                    | none => .error (.keyError "created_at")
                    | some caJ =>
                      match decodeCreatedAt caJ with
                      | .error e => .error e
                      | .ok cav =>
                        .ok { title := titlev, status := stv,
                              priority := prv, id := idv, created_at := cav }
  | _ => .error (.typeError "task data is not subscriptable")

/-- The `for task_id_str, task_data in data.items()` loop of
`JsonStorage.load`: build the `Task`, then store it under
`int(task_id_str)`. -/
def decodeEntries (entries : List (String × Json)) (acc : TaskMap) :
    Except PyErr TaskMap :=
  match entries with
  | [] => .ok acc
  | (kstr, tj) :: rest =>
    match decodeTask tj with
    | .error e => .error e
    | .ok t =>
      match pyIntOfString kstr with
      | none => .error (.valueError ("invalid literal for int(): " ++ kstr))
      | some k => decodeEntries rest (dinsert acc k t)

/-- Conversion of the parsed document to `Dict[int, Task]`. -/
def decodeData (j : Json) : Except PyErr TaskMap :=
  match j with
  | .obj entries => decodeEntries entries []
  | _ => .error (.attributeError "object has no attribute items")

/-- `JsonStorage.load()`: empty collection for a missing or empty file,
propagated `JSONDecodeError` for malformed content, field-by-field
reconstruction otherwise. -/
def JsonStorage.load (st : FileState) : Except PyErr TaskMap :=
  match st with
  | .absent => .ok []
  | .present .emptyContent => .ok []
  | .present .malformed => .error .jsonDecodeError
  | .present (.value j) => decodeData j

namespace TaskRepository

/-- `TaskRepository.create_task`. -/
def create_task (st : FileState) (title : String) (priority : Priority)
    (now : DateTime) : Except PyErr (Task × FileState) :=
  match JsonStorage.load st with
  | .error e => .error e
  | .ok tasks =>
    let next_id := maxKey tasks + 1
    let task : Task := { id := some next_id, title := title,
                         priority := priority, status := .pending,
                         created_at := now }
    .ok (task, JsonStorage.save (dinsert tasks next_id task))

/-- The status filter of `get_all_tasks`: keep all tasks when no filter is
given, else the dict comprehension keeping tasks whose status matches. -/
def filterStatus (status : Option Status) (tasks : TaskMap) : TaskMap :=
  match status with
  | none => tasks
  | some s => tasks.filter (fun kt => decide (kt.2.status = s))

/-- `TaskRepository.get_all_tasks`: optional status filter, then
`[tasks[task_id] for task_id in sorted(tasks.keys())]`. -/
def get_all_tasks (st : FileState) (status : Option Status) :
    Except PyErr (List Task) :=
  match JsonStorage.load st with
  | .error e => .error e
  | .ok tasks =>
    .ok (((keys (filterStatus status tasks)).insertionSort (· ≤ ·)).filterMap
          (fun k => dget (filterStatus status tasks) k))

/-- `TaskRepository.get_task`. -/
def get_task (st : FileState) (task_id : Int) : Except PyErr (Option Task) :=
  match JsonStorage.load st with
  | .error e => .error e
  | .ok tasks => .ok (dget tasks task_id)

/-- `TaskRepository.update_task`. -/
def update_task (st : FileState) (task : Task) :
    Except PyErr (Task × FileState) :=
  match task.id with
  | none => .error (.valueError "Task ID cannot be None")
  | some tid =>
    match JsonStorage.load st with
    | .error e => .error e
    | .ok tasks =>
      if tid ∈ keys tasks then
        .ok (task, JsonStorage.save (dinsert tasks tid task))
      else
        .error (.valueError ("Task with ID " ++ toString tid
          ++ " does not exist"))

/-- `TaskRepository.delete_task`.  The last component records whether
`storage.save` was invoked (the source returns before saving when the id
is absent). -/
def delete_task (st : FileState) (task_id : Int) :
    Except PyErr (Bool × FileState × Bool) :=
  match JsonStorage.load st with
  | .error e => .error e
  | .ok tasks =>
    if task_id ∈ keys tasks then
      .ok (true, JsonStorage.save (derase tasks task_id), true)
    else
      .ok (false, st, false)

/-- `TaskRepository.mark_done`: load by id, absent is a normal result;
otherwise set status to done and delegate to `update_task`. -/
def mark_done (st : FileState) (task_id : Int) :
    Except PyErr (Option Task × FileState) :=
  match get_task st task_id with
  | .error e => .error e
  | .ok none => .ok (none, st)
  | .ok (some task) =>
    match update_task st { task with status := .done } with
    | .error e => .error e
    | .ok (t, st') => .ok (some t, st')

end TaskRepository

/-- Storage states reachable from a fresh (absent) file by `create_task`
and `mark_done` calls.  `datetime.now()` only yields valid datetimes, hence
the `now.valid` premise on creation. -/
inductive ReachCM : FileState → Prop
  | init : ReachCM .absent
  | create {st st' : FileState} {t : Task} {title : String} {p : Priority}
      {now : DateTime} : ReachCM st → now.valid →
      TaskRepository.create_task st title p now = .ok (t, st') → ReachCM st'
  | markDone {st st' : FileState} {r : Option Task} {i : Int} :
      ReachCM st → TaskRepository.mark_done st i = .ok (r, st') → ReachCM st'

/-- Storage states reachable from a fresh (absent) file by `create_task`,
`update_task`, `mark_done` and `delete_task` calls.  Task objects passed to
`update_task` carry Python datetimes, hence the validity premise. -/
inductive ReachAll : FileState → Prop
  | init : ReachAll .absent
  | create {st st' : FileState} {t : Task} {title : String} {p : Priority}
      {now : DateTime} : ReachAll st → now.valid →
      TaskRepository.create_task st title p now = .ok (t, st') → ReachAll st'
  | update {st st' : FileState} {task t : Task} :
      ReachAll st → task.created_at.valid →
      TaskRepository.update_task st task = .ok (t, st') → ReachAll st'
  | markDone {st st' : FileState} {r : Option Task} {i : Int} :
      ReachAll st → TaskRepository.mark_done st i = .ok (r, st') → ReachAll st'
  | delete {st st' : FileState} {b sv : Bool} {i : Int} :
      ReachAll st → TaskRepository.delete_task st i = .ok (b, st', sv) →
      ReachAll st'

/-- Does a task match an optional status filter? -/
def statusMatches (f : Option Status) (t : Task) : Prop :=
  match f with
  | none => True
  | some s => t.status = s

/-- The list `get_all_tasks` returns once the collection is loaded. -/
def listOf (f : Option Status) (m : TaskMap) : List Task :=
  ((keys (TaskRepository.filterStatus f m)).insertionSort (· ≤ ·)).filterMap
    (fun k => dget (TaskRepository.filterStatus f m) k)

/-- The five fields every stored task object must provide. -/
def requiredFields : List String :=
  ["id", "title", "status", "priority", "created_at"]

/-- A concrete Python datetime (midnight, no microseconds). -/
def dt0 : DateTime := ⟨2024, 1, 1, 0, 0, 0, 0⟩

/-- A concrete Python datetime with a nonzero microsecond field. -/
def dtMicro : DateTime := ⟨2024, 3, 15, 10, 30, 45, 123456⟩

def taskA : Task :=
  { title := "A", status := .pending, priority := .medium, id := some 1,
    created_at := dt0 }

def taskB : Task :=
  { title := "B", status := .done, priority := .high, id := some 2,
    created_at := dtMicro }

def taskC : Task :=
  { title := "c", status := .pending, priority := .low, id := some 1,
    created_at := dt0 }

/-- A two-task collection. -/
def m0 : TaskMap := [(1, taskA), (2, taskB)]

/-- The id-reuse scenario of the spec: create "A", create "B", delete(1),
create "C"; collects the assigned ids and the delete result. -/
def c1Scenario : Except PyErr (Option Int × Option Int × Bool × Option Int) :=
  match TaskRepository.create_task .absent "A" .medium dt0 with
  | .error e => .error e
  | .ok (t1, s1) =>
    match TaskRepository.create_task s1 "B" .medium dt0 with
    | .error e => .error e
    | .ok (t2, s2) =>
      match TaskRepository.delete_task s2 1 with
      | .error e => .error e
      | .ok (b, s3, _) =>
        match TaskRepository.create_task s3 "C" .medium dt0 with
        | .error e => .error e
        | .ok (t3, _) => .ok (t1.id, t2.id, b, t3.id)

/-! ### Theorems -/

/-! #### Digit lemmas -/

theorem digitVal_digitChar {d : Nat} (h : d < 10) : digitVal (digitChar d) = d := by
  interval_cases d <;> decide

theorem isDigitChar_digitChar {d : Nat} (h : d < 10) : isDigitChar (digitChar d) = true := by
  interval_cases d <;> decide

theorem digitChar_ne_dash {d : Nat} (h : d < 10) : digitChar d ≠ '-' := by
  interval_cases d <;> decide

theorem natDigitsFuel_eq {n : Nat} :
    ∀ {fuel fuel' : Nat}, n < fuel → n < fuel' →
      natDigitsFuel fuel n = natDigitsFuel fuel' n := by
  induction n using Nat.strong_induction_on with
  | _ n ih =>
    intro fuel fuel' h h'
    match fuel, fuel' with
    | f + 1, f' + 1 =>
      by_cases h10 : n < 10
      · simp [natDigitsFuel, h10]
      · have hn : 0 < n := by omega
        have hdiv : n / 10 < n := Nat.div_lt_self hn (by omega)
        simp only [natDigitsFuel, h10, if_false]
        have step : natDigitsFuel f (n / 10) = natDigitsFuel f' (n / 10) :=
          ih (n / 10) hdiv (show n / 10 < f by omega) (show n / 10 < f' by omega)
        rw [step]

theorem natDigits_unfold (n : Nat) :
    natDigits n = if n < 10 then [n] else natDigits (n / 10) ++ [n % 10] := by
  by_cases h10 : n < 10
  · simp [natDigits, natDigitsFuel, h10]
  · rw [if_neg h10]
    have lhs : natDigits n = natDigitsFuel n (n / 10) ++ [n % 10] := by
      simp [natDigits, natDigitsFuel, h10]
    rw [lhs]
    have : natDigitsFuel n (n / 10) = natDigitsFuel (n / 10 + 1) (n / 10) :=
      natDigitsFuel_eq (show n / 10 < n by
        exact Nat.div_lt_self (by omega) (by omega)) (by omega)
    rw [this]
    rfl

theorem natDigits_lt (n : Nat) : ∀ d ∈ natDigits n, d < 10 := by
  induction n using Nat.strong_induction_on with
  | _ n ih =>
    rw [natDigits_unfold]
    by_cases h10 : n < 10
    · simp [h10]
    · have hn : 0 < n := by omega
      have hdiv : n / 10 < n := Nat.div_lt_self hn (by omega)
      simp only [h10, if_false]
      intro d hd
      rcases List.mem_append.mp hd with hd | hd
      · exact ih _ hdiv d hd
      · simp at hd; omega

theorem natDigits_ne_nil (n : Nat) : natDigits n ≠ [] := by
  rw [natDigits_unfold]
  by_cases h10 : n < 10 <;> simp [h10]

theorem foldl_natDigits (n : Nat) :
    ∀ acc : Nat, (natDigits n).foldl (fun a d => 10 * a + d) acc
      = acc * 10 ^ (natDigits n).length + n := by
  induction n using Nat.strong_induction_on with
  | _ n ih =>
    intro acc
    rw [natDigits_unfold]
    by_cases h10 : n < 10
    · simp [h10]; ring
    · have hn : 0 < n := by omega
      have hdiv : n / 10 < n := Nat.div_lt_self hn (by omega)
      simp only [h10, if_false]
      rw [List.foldl_append]
      rw [ih _ hdiv acc]
      simp only [List.foldl_cons, List.foldl_nil, List.length_append,
        List.length_cons, List.length_nil]
      have hmod : 10 * (n / 10) + n % 10 = n := by omega
      rw [pow_succ]
      ring_nf
      omega

theorem foldl_map_digitCharVal (l : List Nat) :
    ∀ acc : Nat, (∀ d ∈ l, d < 10) →
      (l.map digitChar).foldl (fun a c => 10 * a + digitVal c) acc
        = l.foldl (fun a d => 10 * a + d) acc := by
  induction l with
  | nil => intro acc _; rfl
  | cons d rest ih =>
    intro acc hl
    simp only [List.map_cons, List.foldl_cons]
    rw [digitVal_digitChar (hl d (by simp))]
    exact ih _ (fun x hx => hl x (by simp [hx]))

theorem natStrChars_ne_nil (n : Nat) : natStrChars n ≠ [] := by
  rw [natStrChars]
  intro h
  exact natDigits_ne_nil n (List.map_eq_nil_iff.mp h)

theorem parseNatChars_natStrChars (n : Nat) : parseNatChars (natStrChars n) = some n := by
  have hne : (natStrChars n).isEmpty = false := by
    rcases h : natStrChars n with _ | ⟨c, rest⟩
    · exact absurd h (natStrChars_ne_nil n)
    · rfl
  have hall : (natStrChars n).all isDigitChar = true := by
    rw [natStrChars, List.all_eq_true]
    intro c hc
    rcases List.mem_map.mp hc with ⟨d, hd, rfl⟩
    exact isDigitChar_digitChar (natDigits_lt n d hd)
  have hfold : (natStrChars n).foldl (fun a c => 10 * a + digitVal c) 0 = n := by
    rw [natStrChars, foldl_map_digitCharVal _ 0 (natDigits_lt n), foldl_natDigits]
    simp
  simp [parseNatChars, hne, hall, hfold]

theorem pyIntOfChars_neg (m : Nat) :
    pyIntOfChars ('-' :: natStrChars m) = some (-(m : Int)) := by
  rw [pyIntOfChars]
  rw [if_pos rfl]
  rw [parseNatChars_natStrChars]
  rfl

theorem pyIntOfChars_nonneg (m : Nat) :
    pyIntOfChars (natStrChars m) = some (m : Int) := by
  rcases hcs : natStrChars m with _ | ⟨c, rest⟩
  · exact absurd hcs (natStrChars_ne_nil m)
  · have hcd : c ∈ natStrChars m := by rw [hcs]; simp
    have hdig : ∃ d, d < 10 ∧ digitChar d = c := by
      simp only [natStrChars, List.mem_map] at hcd
      rcases hcd with ⟨d, hd, hcd⟩
      exact ⟨d, natDigits_lt _ d hd, hcd⟩
    rcases hdig with ⟨d, hd10, rfl⟩
    rw [pyIntOfChars]
    rw [if_neg (digitChar_ne_dash hd10)]
    rw [← hcs, parseNatChars_natStrChars]
    rfl

theorem pyIntOfString_pyStrInt (k : Int) : pyIntOfString (pyStrInt k) = some k := by
  by_cases hk : k < 0
  · rw [pyStrInt, if_pos hk]
    show pyIntOfChars ('-' :: natStrChars k.natAbs) = some k
    rw [pyIntOfChars_neg]
    congr 1
    omega
  · rw [pyStrInt, if_neg hk]
    show pyIntOfChars (natStrChars k.natAbs) = some k
    rw [pyIntOfChars_nonneg]
    congr 1
    omega

theorem d2_digits {n : Nat} (h : n < 100) :
    d2 (digitChar (n / 10 % 10)) (digitChar (n % 10)) = some n := by
  have h1 : n / 10 % 10 < 10 := Nat.mod_lt _ (by omega)
  have h2 : n % 10 < 10 := Nat.mod_lt _ (by omega)
  rw [d2, isDigitChar_digitChar h1, isDigitChar_digitChar h2]
  simp only [Bool.and_self, if_true]
  rw [digitVal_digitChar h1, digitVal_digitChar h2]
  congr 1
  omega

theorem d4_digits {n : Nat} (h : n < 10000) :
    d4 (digitChar (n / 1000 % 10)) (digitChar (n / 100 % 10))
       (digitChar (n / 10 % 10)) (digitChar (n % 10)) = some n := by
  have h1 : n / 1000 % 10 < 10 := Nat.mod_lt _ (by omega)
  have h2 : n / 100 % 10 < 10 := Nat.mod_lt _ (by omega)
  have h3 : n / 10 % 10 < 10 := Nat.mod_lt _ (by omega)
  have h4 : n % 10 < 10 := Nat.mod_lt _ (by omega)
  rw [d4, isDigitChar_digitChar h1, isDigitChar_digitChar h2,
    isDigitChar_digitChar h3, isDigitChar_digitChar h4]
  simp only [Bool.and_self, if_true]
  rw [digitVal_digitChar h1, digitVal_digitChar h2, digitVal_digitChar h3,
    digitVal_digitChar h4]
  congr 1
  omega

theorem d6_digits {n : Nat} (h : n < 1000000) :
    d6 (digitChar (n / 100000 % 10)) (digitChar (n / 10000 % 10))
       (digitChar (n / 1000 % 10)) (digitChar (n / 100 % 10))
       (digitChar (n / 10 % 10)) (digitChar (n % 10)) = some n := by
  have h1 : n / 100000 % 10 < 10 := Nat.mod_lt _ (by omega)
  have h2 : n / 10000 % 10 < 10 := Nat.mod_lt _ (by omega)
  have h3 : n / 1000 % 10 < 10 := Nat.mod_lt _ (by omega)
  have h4 : n / 100 % 10 < 10 := Nat.mod_lt _ (by omega)
  have h5 : n / 10 % 10 < 10 := Nat.mod_lt _ (by omega)
  have h6 : n % 10 < 10 := Nat.mod_lt _ (by omega)
  rw [d6, isDigitChar_digitChar h1, isDigitChar_digitChar h2,
    isDigitChar_digitChar h3, isDigitChar_digitChar h4,
    isDigitChar_digitChar h5, isDigitChar_digitChar h6]
  simp only [Bool.and_self, if_true]
  rw [digitVal_digitChar h1, digitVal_digitChar h2, digitVal_digitChar h3,
    digitVal_digitChar h4, digitVal_digitChar h5, digitVal_digitChar h6]
  congr 1
  omega

/-- The persisted timestamp round-trips exactly (sub-second precision
included) for every datetime a Python `datetime` object can hold. -/
theorem fromisoformat_isoformat (d : DateTime) (h : d.valid) :
    DateTime.fromisoformat d.isoformat = some d := by
  obtain ⟨hy1, hy2, hm1, hm2, hd1, hd2, hh, hmi, hs, hu⟩ := h
  show fromisoChars d.isoformatChars = some d
  rw [DateTime.isoformatChars]
  by_cases hmic : d.microsecond = 0
  · rw [if_pos hmic]
    simp only [fromisoChars, d4_digits (show d.year < 10000 by omega),
      d2_digits (show d.month < 100 by omega),
      d2_digits (show d.day < 100 by omega),
      d2_digits (show d.hour < 100 by omega),
      d2_digits (show d.minute < 100 by omega),
      d2_digits (show d.second < 100 by omega), if_true]
    rw [← hmic]
    simp
  · rw [if_neg hmic]
    simp only [fromisoChars, d4_digits (show d.year < 10000 by omega),
      d2_digits (show d.month < 100 by omega),
      d2_digits (show d.day < 100 by omega),
      d2_digits (show d.hour < 100 by omega),
      d2_digits (show d.minute < 100 by omega),
      d2_digits (show d.second < 100 by omega),
      d6_digits (show d.microsecond < 1000000 by omega), if_true]
    simp

/-! ### Dictionary lemmas -/

theorem dget_eq_none_iff {m : TaskMap} {k : Int} :
    dget m k = none ↔ k ∉ keys m := by
  induction m with
  | nil => simp [dget, keys]
  | cons kt rest ih =>
    obtain ⟨k', t⟩ := kt
    by_cases hk : k = k'
    · subst hk
      simp [dget, keys]
    · rw [dget, if_neg hk]
      show dget rest k = none ↔ k ∉ k' :: keys rest
      rw [ih]
      simp [hk]

theorem mem_keys_of_dget {m : TaskMap} {k : Int} {t : Task}
    (h : dget m k = some t) : k ∈ keys m := by
  by_contra hk
  rw [← dget_eq_none_iff] at hk
  rw [h] at hk
  exact Option.noConfusion hk

theorem mem_of_dget {m : TaskMap} {k : Int} {t : Task}
    (h : dget m k = some t) : (k, t) ∈ m := by
  induction m with
  | nil => exact absurd h (by simp [dget])
  | cons kt rest ih =>
    obtain ⟨k', t'⟩ := kt
    by_cases hk : k = k'
    · subst hk
      rw [dget, if_pos rfl] at h
      simp [Option.some.injEq] at h
      simp [h]
    · rw [dget, if_neg hk] at h
      simp [ih h]

theorem dget_of_mem_nodup {m : TaskMap} {k : Int} {t : Task}
    (hnd : (keys m).Nodup) (h : (k, t) ∈ m) : dget m k = some t := by
  induction m with
  | nil => simp at h
  | cons kt rest ih =>
    obtain ⟨k', t'⟩ := kt
    rw [keys, List.map_cons, List.nodup_cons] at hnd
    rcases List.mem_cons.mp h with heq | hmem
    · rw [Prod.mk.injEq] at heq
      rw [dget, if_pos heq.1]
      rw [heq.2]
    · have hk : k ≠ k' := by
        intro hkk
        subst hkk
        exact hnd.1 (by simpa [keys] using List.mem_map_of_mem Prod.fst hmem)
      rw [dget, if_neg hk]
      exact ih hnd.2 hmem

theorem dget_dinsert_self (m : TaskMap) (k : Int) (t : Task) :
    dget (dinsert m k t) k = some t := by
  induction m with
  | nil => simp [dinsert, dget]
  | cons kt rest ih =>
    obtain ⟨k', t'⟩ := kt
    by_cases hk : k = k'
    · subst hk
      simp [dinsert, dget]
    · simp [dinsert, hk, dget, ih]

theorem dget_dinsert_ne (m : TaskMap) {k k' : Int} (t : Task)
    (h : k' ≠ k) : dget (dinsert m k t) k' = dget m k' := by
  induction m with
  | nil => simp [dinsert, dget, h]
  | cons kt rest ih =>
    obtain ⟨k'', t''⟩ := kt
    by_cases hk : k = k''
    · subst hk
      simp [dinsert, dget, h]
    · by_cases hk' : k' = k''
      · subst hk'
        simp [dinsert, hk, dget]
      · simp [dinsert, hk, dget, hk', ih]

theorem mem_dinsert {m : TaskMap} {k : Int} {t : Task} {kt : Int × Task}
    (h : kt ∈ dinsert m k t) : kt = (k, t) ∨ kt ∈ m := by
  induction m with
  | nil => simpa [dinsert] using h
  | cons kt' rest ih =>
    obtain ⟨k', t'⟩ := kt'
    by_cases hk : k = k'
    · subst hk
      rw [dinsert, if_pos rfl] at h
      rcases List.mem_cons.mp h with h | h
      · exact Or.inl h
      · exact Or.inr (List.mem_cons_of_mem _ h)
    · rw [dinsert, if_neg hk] at h
      rcases List.mem_cons.mp h with h | h
      · exact Or.inr (by simp [h])
      · rcases ih h with h | h
        · exact Or.inl h
        · exact Or.inr (List.mem_cons_of_mem _ h)

theorem keys_dinsert_mem {m : TaskMap} {k : Int} (t : Task)
    (h : k ∈ keys m) : keys (dinsert m k t) = keys m := by
  induction m with
  | nil => simp [keys] at h
  | cons kt rest ih =>
    obtain ⟨k', t'⟩ := kt
    by_cases hk : k = k'
    · subst hk
      simp [dinsert, keys]
    · rw [keys, List.map_cons] at h
      rcases List.mem_cons.mp h with h | h
      · exact absurd h.symm (Ne.symm hk)
      · rw [dinsert, if_neg hk]
        show k' :: keys (dinsert rest k t) = k' :: keys rest
        rw [ih h]

theorem dinsert_eq_append {m : TaskMap} {k : Int} (t : Task)
    (h : k ∉ keys m) : dinsert m k t = m ++ [(k, t)] := by
  induction m with
  | nil => simp [dinsert]
  | cons kt rest ih =>
    obtain ⟨k', t'⟩ := kt
    rw [keys, List.map_cons, List.mem_cons] at h
    push_neg at h
    rw [dinsert, if_neg h.1]
    rw [ih h.2]
    rfl

theorem nodup_keys_dinsert {m : TaskMap} (k : Int) (t : Task)
    (h : (keys m).Nodup) : (keys (dinsert m k t)).Nodup := by
  by_cases hk : k ∈ keys m
  · rw [keys_dinsert_mem t hk]
    exact h
  · rw [dinsert_eq_append t hk]
    rw [keys, List.map_append]
    simp only [List.map_cons, List.map_nil]
    rw [List.nodup_append]
    exact ⟨h, List.nodup_singleton k, by simpa [keys] using hk⟩

theorem dinsert_eq_self {m : TaskMap} {k : Int} {t : Task}
    (hnd : (keys m).Nodup) (h : dget m k = some t) : dinsert m k t = m := by
  induction m with
  | nil => exact absurd h (by simp [dget])
  | cons kt rest ih =>
    obtain ⟨k', t'⟩ := kt
    rw [keys, List.map_cons, List.nodup_cons] at hnd
    by_cases hk : k = k'
    · subst hk
      rw [dget, if_pos rfl] at h
      simp only [Option.some.injEq] at h
      rw [dinsert, if_pos rfl, h]
    · rw [dget, if_neg hk] at h
      rw [dinsert, if_neg hk]
      rw [ih hnd.2 h]

theorem mem_derase {m : TaskMap} {k : Int} {kt : Int × Task}
    (h : kt ∈ derase m k) : kt ∈ m := by
  induction m with
  | nil => simp [derase] at h
  | cons kt' rest ih =>
    obtain ⟨k', t'⟩ := kt'
    by_cases hk : k = k'
    · subst hk
      rw [derase, if_pos rfl] at h
      exact List.mem_cons_of_mem _ h
    · rw [derase, if_neg hk] at h
      rcases List.mem_cons.mp h with h | h
      · simp [h]
      · exact List.mem_cons_of_mem _ (ih h)

theorem dget_derase_self {m : TaskMap} {k : Int}
    (hnd : (keys m).Nodup) : dget (derase m k) k = none := by
  induction m with
  | nil => simp [derase, dget]
  | cons kt rest ih =>
    obtain ⟨k', t'⟩ := kt
    rw [keys, List.map_cons, List.nodup_cons] at hnd
    by_cases hk : k = k'
    · subst hk
      rw [derase, if_pos rfl]
      rw [dget_eq_none_iff]
      exact hnd.1
    · rw [derase, if_neg hk, dget, if_neg hk]
      exact ih hnd.2

theorem dget_derase_ne (m : TaskMap) {k k' : Int} (h : k' ≠ k) :
    dget (derase m k) k' = dget m k' := by
  induction m with
  | nil => simp [derase]
  | cons kt rest ih =>
    obtain ⟨k'', t''⟩ := kt
    by_cases hk : k = k''
    · subst hk
      rw [derase, if_pos rfl, dget, if_neg h]
    · by_cases hk' : k' = k''
      · subst hk'
        rw [derase, if_neg hk, dget, if_pos rfl, dget, if_pos rfl]
      · rw [derase, if_neg hk, dget, if_neg hk', dget, if_neg hk']
        exact ih

theorem nodup_keys_derase {m : TaskMap} (k : Int)
    (h : (keys m).Nodup) : (keys (derase m k)).Nodup := by
  induction m with
  | nil => simp [derase, keys]
  | cons kt rest ih =>
    obtain ⟨k', t'⟩ := kt
    rw [keys, List.map_cons, List.nodup_cons] at h
    by_cases hk : k = k'
    · subst hk
      rw [derase, if_pos rfl]
      exact h.2
    · rw [derase, if_neg hk, keys, List.map_cons, List.nodup_cons]
      constructor
      · intro hmem
        rcases List.mem_map.mp hmem with ⟨kt, hkt, hfst⟩
        exact h.1 (by
          rw [← hfst]
          exact List.mem_map_of_mem Prod.fst (mem_derase hkt))
      · exact ih h.2

theorem le_maxKey {m : TaskMap} {k : Int} (h : k ∈ keys m) : k ≤ maxKey m := by
  rw [maxKey]
  rcases hks : keys m with _ | ⟨k0, ks⟩
  · rw [hks] at h
    simp at h
  · rw [hks] at h
    have hfold : ∀ (l : List Int) (a : Int), a ≤ l.foldl max a
        ∧ ∀ x ∈ l, x ≤ l.foldl max a := by
      intro l
      induction l with
      | nil => intro a; simp
      | cons b bs ihl =>
        intro a
        refine ⟨?_, ?_⟩
        · rw [List.foldl_cons]
          exact le_trans (le_max_left a b) (ihl (max a b)).1
        · intro x hx
          rcases List.mem_cons.mp hx with rfl | hx
          · rw [List.foldl_cons]
            exact le_trans (le_max_right a x) (ihl (max a x)).1
          · rw [List.foldl_cons]
            exact (ihl (max a b)).2 x hx
    rcases List.mem_cons.mp h with rfl | hmem
    · exact (hfold ks k).1
    · exact (hfold ks k0).2 k hmem

/-! ### Serialization round-trip -/

theorem decodeTask_serialize (t : Task) (h : DateTime.valid t.created_at) :
    decodeTask (Task.serialize t) = .ok t := by
  obtain ⟨title, st, pr, id, ca⟩ := t
  have hca := fromisoformat_isoformat ca h
  rcases id with _ | n <;> cases st <;> cases pr <;>
    simp [Task.serialize, decodeTask, getField, decodeId, decodeTitle,
      decodeStatus, decodePriority, decodeCreatedAt, Status.ofValue,
      Priority.ofValue, Status.value, Priority.value, hca]

theorem decodeEntries_serialize {m : TaskMap} (hval : AllValid m)
    (hnd : (keys m).Nodup) :
    ∀ acc : TaskMap, (∀ k ∈ keys m, k ∉ keys acc) →
      decodeEntries (m.map (fun kt => (pyStrInt kt.1, Task.serialize kt.2))) acc
        = .ok (acc ++ m) := by
  induction m with
  | nil =>
    intro acc _
    simp [decodeEntries]
  | cons kt rest ih =>
    obtain ⟨k, t⟩ := kt
    intro acc hdis
    rw [keys, List.map_cons, List.nodup_cons] at hnd
    simp only [List.map_cons, decodeEntries,
      decodeTask_serialize t (hval (k, t) (by simp)), pyIntOfString_pyStrInt]
    have hk_acc : k ∉ keys acc := hdis k (by simp [keys])
    rw [dinsert_eq_append t hk_acc]
    have hval' : AllValid rest := fun kt hkt => hval kt (by simp [hkt])
    have hdis' : ∀ k' ∈ keys rest, k' ∉ keys (acc ++ [(k, t)]) := by
      intro k' hk'
      rw [keys, List.map_append]
      rw [List.mem_append]
      push_neg
      constructor
      · exact hdis k' (List.mem_cons_of_mem _ hk')
      · simp only [List.map_cons, List.map_nil, List.mem_singleton]
        intro heq
        exact hnd.1 (heq ▸ hk')
    rw [ih hval' hnd.2 (acc ++ [(k, t)]) hdis']
    simp

/-- `JsonStorage.save` followed by `JsonStorage.load` reconstructs the
collection exactly, for every collection whose keys are unique (true of
every Python dict) and whose timestamps are Python datetimes. -/
theorem load_save (m : TaskMap) (hnd : (keys m).Nodup) (hval : AllValid m) :
    JsonStorage.load (JsonStorage.save m) = .ok m := by
  show decodeData (serializeTasks m) = .ok m
  rw [serializeTasks, decodeData]
  rw [decodeEntries_serialize hval hnd [] (by simp [keys])]
  simp

theorem decodeEntries_nodup :
    ∀ (entries : List (String × Json)) (acc m : TaskMap),
      (keys acc).Nodup → decodeEntries entries acc = .ok m →
        (keys m).Nodup := by
  intro entries
  induction entries with
  | nil =>
    intro acc m hacc h
    rw [decodeEntries] at h
    cases h
    exact hacc
  | cons e rest ih =>
    obtain ⟨kstr, tj⟩ := e
    intro acc m hacc h
    rw [decodeEntries] at h
    rcases hdt : decodeTask tj with e' | t
    · rw [hdt] at h
      exact absurd h (by simp)
    · rw [hdt] at h
      rcases hpi : pyIntOfString kstr with _ | k
      · rw [hpi] at h
        exact absurd h (by simp)
      · rw [hpi] at h
        exact ih _ m (nodup_keys_dinsert k t hacc) h

/-- Every collection `JsonStorage.load` can produce has unique keys (it is
rebuilt entry by entry through dict assignment). -/
theorem load_nodup {st : FileState} {m : TaskMap}
    (h : JsonStorage.load st = .ok m) : (keys m).Nodup := by
  match st with
  | .absent =>
    rw [JsonStorage.load] at h
    cases h
    simp [keys]
  | .present .emptyContent =>
    rw [JsonStorage.load] at h
    cases h
    simp [keys]
  | .present .malformed =>
    rw [JsonStorage.load] at h
    exact absurd h (by simp)
  | .present (.value j) =>
    rw [JsonStorage.load] at h
    match j with
    | .null => exact absurd h (by simp [decodeData])
    | .str s => exact absurd h (by simp [decodeData])
    | .int n => exact absurd h (by simp [decodeData])
    | .obj entries =>
      rw [decodeData] at h
      exact decodeEntries_nodup entries [] m (by simp [keys]) h

theorem get_all_tasks_eq {st : FileState} {m : TaskMap} (f : Option Status)
    (hL : JsonStorage.load st = .ok m) :
    TaskRepository.get_all_tasks st f = .ok (listOf f m) := by
  rw [TaskRepository.get_all_tasks, hL]
  rfl

theorem mem_filterStatus {m : TaskMap} {f : Option Status} {k : Int} {t : Task} :
    (k, t) ∈ TaskRepository.filterStatus f m ↔ (k, t) ∈ m ∧ statusMatches f t := by
  match f with
  | none => simp [TaskRepository.filterStatus, statusMatches]
  | some s => simp [TaskRepository.filterStatus, statusMatches, List.mem_filter]

theorem nodup_keys_filterStatus {m : TaskMap} (f : Option Status)
    (hnd : (keys m).Nodup) : (keys (TaskRepository.filterStatus f m)).Nodup := by
  match f with
  | none => exact hnd
  | some s =>
    rw [TaskRepository.filterStatus]
    exact hnd.sublist (List.Sublist.map Prod.fst (List.filter_sublist m))

theorem mem_listOf {m : TaskMap} {f : Option Status} {t : Task}
    (hnd : (keys m).Nodup) :
    t ∈ listOf f m ↔ ∃ k, (k, t) ∈ m ∧ statusMatches f t := by
  rw [listOf]
  constructor
  · intro ht
    rcases List.mem_filterMap.mp ht with ⟨k, _, hget⟩
    exact ⟨k, mem_filterStatus.mp (mem_of_dget hget)⟩
  · intro ⟨k, hkt, hmatch⟩
    have hmemf : (k, t) ∈ TaskRepository.filterStatus f m := mem_filterStatus.mpr ⟨hkt, hmatch⟩
    have hndf := nodup_keys_filterStatus f hnd
    refine List.mem_filterMap.mpr ⟨k, ?_, dget_of_mem_nodup hndf hmemf⟩
    rw [List.mem_insertionSort]
    exact List.mem_map_of_mem Prod.fst hmemf

theorem pairwise_filterMap_of {α β : Type} {R : α → α → Prop}
    {S : β → β → Prop} (g : α → Option β)
    (h : ∀ a b x y, R a b → g a = some x → g b = some y → S x y) :
    ∀ l : List α, l.Pairwise R → (l.filterMap g).Pairwise S := by
  intro l
  induction l with
  | nil => intro _; simp
  | cons a rest ih =>
    intro hp
    rw [List.pairwise_cons] at hp
    rcases hg : g a with _ | x
    · simp only [List.filterMap_cons, hg]
      exact ih hp.2
    · simp only [List.filterMap_cons, hg]
      rw [List.pairwise_cons]
      constructor
      · intro y hy
        rcases List.mem_filterMap.mp hy with ⟨b, hb, hgb⟩
        exact h a b x y (hp.1 b hb) hg hgb
      · exact ih hp.2

theorem pairwise_lt_sortKeys (ks : List Int) (hnd : ks.Nodup) :
    (ks.insertionSort (· ≤ ·)).Pairwise (· < ·) := by
  have hs : (ks.insertionSort (· ≤ ·)).Sorted (· ≤ ·) :=
    List.sorted_insertionSort _ ks
  have hnd' : (ks.insertionSort (· ≤ ·)).Nodup :=
    ((List.perm_insertionSort _ ks).nodup_iff).mpr hnd
  exact (hs.and hnd').imp (fun hab => lt_of_le_of_ne hab.1 hab.2)

/-- Elements of `listOf` are returned in strictly ascending id order when
the collection stores every task under its own id. -/
theorem pairwise_listOf {m : TaskMap} (f : Option Status)
    (hnd : (keys m).Nodup) (hids : IdsMatch m) :
    (listOf f m).Pairwise
      (fun a b => ∃ i j, a.id = some i ∧ b.id = some j ∧ i < j) := by
  rw [listOf]
  apply pairwise_filterMap_of (fun k => dget (TaskRepository.filterStatus f m) k) ?_ _
    (pairwise_lt_sortKeys _ (nodup_keys_filterStatus f hnd))
  intro a b x y hab hga hgb
  have hxa : x.id = some a := by
    have := mem_filterStatus.mp (mem_of_dget hga)
    exact hids (a, x) this.1
  have hyb : y.id = some b := by
    have := mem_filterStatus.mp (mem_of_dget hgb)
    exact hids (b, y) this.1
  exact ⟨a, b, hxa, hyb, hab⟩

theorem decodeTask_ok_fields {fields : List (String × Json)} {t : Task}
    (h : decodeTask (.obj fields) = .ok t) :
    ∀ fname ∈ requiredFields, (getField fields fname).isSome := by
  simp only [decodeTask] at h
  rcases h1 : getField fields "id" with _ | idJ
  · simp only [h1] at h
    exact Except.noConfusion h
  · simp only [h1] at h
    rcases h2 : decodeId idJ with e | idv
    · simp only [h2] at h
      exact Except.noConfusion h
    · simp only [h2] at h
      rcases h3 : getField fields "title" with _ | titleJ
      · simp only [h3] at h
        exact Except.noConfusion h
      · simp only [h3] at h
        rcases h4 : decodeTitle titleJ with e | titlev
        · simp only [h4] at h
          exact Except.noConfusion h
        · simp only [h4] at h
          rcases h5 : getField fields "status" with _ | stJ
          · simp only [h5] at h
            exact Except.noConfusion h
          · simp only [h5] at h
            rcases h6 : decodeStatus stJ with e | stv
            · simp only [h6] at h
              exact Except.noConfusion h
            · simp only [h6] at h
              rcases h7 : getField fields "priority" with _ | prJ
              · simp only [h7] at h
                exact Except.noConfusion h
              · simp only [h7] at h
                rcases h8 : decodePriority prJ with e | prv
                · simp only [h8] at h
                  exact Except.noConfusion h
                · simp only [h8] at h
                  rcases h9 : getField fields "created_at" with _ | caJ
                  · simp only [h9] at h
                    exact Except.noConfusion h
                  · simp only [h9] at h
                    intro fname hf
                    fin_cases hf <;> simp [h1, h3, h5, h7, h9]

theorem decodeTask_missing {fields : List (String × Json)} {fname : String}
    (hf : fname ∈ requiredFields) (hmiss : getField fields fname = none) :
    ∃ e, decodeTask (.obj fields) = .error e := by
  rcases hd : decodeTask (.obj fields) with e | t
  · exact ⟨e, rfl⟩
  · have := decodeTask_ok_fields hd fname hf
    rw [hmiss] at this
    simp at this

theorem decodeEntries_error {kstr : String} {fields : List (String × Json)} :
    ∀ (entries : List (String × Json)) (acc : TaskMap),
      (kstr, Json.obj fields) ∈ entries →
      (∃ e, decodeTask (.obj fields) = .error e) →
      ∃ e, decodeEntries entries acc = .error e := by
  intro entries
  induction entries with
  | nil =>
    intro acc hmem _
    simp at hmem
  | cons entry rest ih =>
    obtain ⟨kstr', tj'⟩ := entry
    intro acc hmem hfail
    rcases hdt : decodeTask tj' with e | t
    · exact ⟨e, by simp only [decodeEntries, hdt]⟩
    · rcases List.mem_cons.mp hmem with heq | hmem'
      · rw [Prod.mk.injEq] at heq
        rcases hfail with ⟨e, hfe⟩
        rw [heq.2, hdt] at hfe
        exact Except.noConfusion hfe
      · rcases hpi : pyIntOfString kstr' with _ | k
        · exact ⟨.valueError ("invalid literal for int(): " ++ kstr'),
            by simp only [decodeEntries, hdt, hpi]⟩
        · rcases ih (dinsert acc k t) hmem' hfail with ⟨e, he⟩
          exact ⟨e, by simp only [decodeEntries, hdt, hpi, he]⟩

/-! ### Equation lemmas for the repository operations, given a loaded
collection -/

theorem create_task_eq {st : FileState} {m : TaskMap} (title : String)
    (p : Priority) (now : DateTime) (hL : JsonStorage.load st = .ok m) :
    TaskRepository.create_task st title p now
      = .ok ({ title := title, status := .pending, priority := p,
               id := some (maxKey m + 1), created_at := now },
             JsonStorage.save (dinsert m (maxKey m + 1)
               { title := title, status := .pending, priority := p,
                 id := some (maxKey m + 1), created_at := now })) := by
  rw [TaskRepository.create_task, hL]

theorem get_task_eq {st : FileState} {m : TaskMap} (i : Int)
    (hL : JsonStorage.load st = .ok m) :
    TaskRepository.get_task st i = .ok (dget m i) := by
  rw [TaskRepository.get_task, hL]

theorem update_task_none {st : FileState} {task : Task}
    (hid : task.id = none) :
    TaskRepository.update_task st task
      = .error (.valueError "Task ID cannot be None") := by
  rw [TaskRepository.update_task, hid]

theorem update_task_eq {st : FileState} {m : TaskMap} {task : Task}
    {tid : Int} (hL : JsonStorage.load st = .ok m)
    (hid : task.id = some tid) :
    TaskRepository.update_task st task
      = if tid ∈ keys m then
          .ok (task, JsonStorage.save (dinsert m tid task))
        else
          .error (.valueError ("Task with ID " ++ toString tid
            ++ " does not exist")) := by
  rw [TaskRepository.update_task, hid, hL]

theorem delete_task_eq {st : FileState} {m : TaskMap} (i : Int)
    (hL : JsonStorage.load st = .ok m) :
    TaskRepository.delete_task st i
      = if i ∈ keys m then
          .ok (true, JsonStorage.save (derase m i), true)
        else
          .ok (false, st, false) := by
  rw [TaskRepository.delete_task, hL]

theorem mark_done_none {st : FileState} {m : TaskMap} (i : Int)
    (hL : JsonStorage.load st = .ok m) (hget : dget m i = none) :
    TaskRepository.mark_done st i = .ok (none, st) := by
  rw [TaskRepository.mark_done, get_task_eq i hL, hget]

theorem mark_done_some {st : FileState} {m : TaskMap} {i : Int} {task : Task}
    (hL : JsonStorage.load st = .ok m) (hget : dget m i = some task) :
    TaskRepository.mark_done st i
      = match TaskRepository.update_task st { task with status := .done } with
        | .error e => .error e
        | .ok (t, st') => .ok (some t, st') := by
  rw [TaskRepository.mark_done, get_task_eq i hL, hget]

/-- Every storage state reachable through the repository operations loads
successfully, holds only valid datetimes, and stores every task under its
own id. -/
theorem reachAll_inv {st : FileState} (h : ReachAll st) :
    ∃ m, JsonStorage.load st = .ok m ∧ AllValid m ∧ IdsMatch m := by
  induction h with
  | init =>
    refine ⟨[], rfl, ?_, ?_⟩ <;> intro kt hkt <;> simp at hkt
  | @create st st' t title p now _ hv hstep ih =>
    rcases ih with ⟨m, hL, hval, hids⟩
    rw [create_task_eq title p now hL] at hstep
    simp only [Except.ok.injEq, Prod.mk.injEq] at hstep
    obtain ⟨-, hst'⟩ := hstep
    subst hst'
    have hnd := load_nodup hL
    refine ⟨_, load_save _ (nodup_keys_dinsert _ _ hnd) ?_, ?_, ?_⟩
    · intro kt hkt
      rcases mem_dinsert hkt with rfl | hkt'
      · exact hv
      · exact hval kt hkt'
    · intro kt hkt
      rcases mem_dinsert hkt with rfl | hkt'
      · exact hv
      · exact hval kt hkt'
    · intro kt hkt
      rcases mem_dinsert hkt with rfl | hkt'
      · rfl
      · exact hids kt hkt'
  | @update st st' task t _ hv hstep ih =>
    rcases ih with ⟨m, hL, hval, hids⟩
    rcases hid : task.id with _ | tid
    · rw [update_task_none hid] at hstep
      exact Except.noConfusion hstep
    · rw [update_task_eq hL hid] at hstep
      by_cases hmem : tid ∈ keys m
      · rw [if_pos hmem] at hstep
        simp only [Except.ok.injEq, Prod.mk.injEq] at hstep
        obtain ⟨-, hst'⟩ := hstep
        subst hst'
        have hnd := load_nodup hL
        refine ⟨_, load_save _ (nodup_keys_dinsert _ _ hnd) ?_, ?_, ?_⟩
        · intro kt hkt
          rcases mem_dinsert hkt with rfl | hkt'
          · exact hv
          · exact hval kt hkt'
        · intro kt hkt
          rcases mem_dinsert hkt with rfl | hkt'
          · exact hv
          · exact hval kt hkt'
        · intro kt hkt
          rcases mem_dinsert hkt with rfl | hkt'
          · exact hid
          · exact hids kt hkt'
      · rw [if_neg hmem] at hstep
        exact Except.noConfusion hstep
  | @markDone st st' r i _ hstep ih =>
    rcases ih with ⟨m, hL, hval, hids⟩
    rcases hget : dget m i with _ | t0
    · rw [mark_done_none i hL hget] at hstep
      simp only [Except.ok.injEq, Prod.mk.injEq] at hstep
      obtain ⟨-, hst'⟩ := hstep
      subst hst'
      exact ⟨m, hL, hval, hids⟩
    · rw [mark_done_some hL hget] at hstep
      have hid0 : t0.id = some i := hids (i, t0) (mem_of_dget hget)
      have hid1 : (Task.mk t0.title .done t0.priority t0.id t0.created_at).id
          = some i := hid0
      rw [update_task_eq hL hid1] at hstep
      have hmem : i ∈ keys m := mem_keys_of_dget hget
      rw [if_pos hmem] at hstep
      simp only [Except.ok.injEq, Prod.mk.injEq] at hstep
      obtain ⟨-, hst'⟩ := hstep
      subst hst'
      have hnd := load_nodup hL
      refine ⟨_, load_save _ (nodup_keys_dinsert _ _ hnd) ?_, ?_, ?_⟩
      · intro kt hkt
        rcases mem_dinsert hkt with rfl | hkt'
        · exact hval (i, t0) (mem_of_dget hget)
        · exact hval kt hkt'
      · intro kt hkt
        rcases mem_dinsert hkt with rfl | hkt'
        · exact hval (i, t0) (mem_of_dget hget)
        · exact hval kt hkt'
      · intro kt hkt
        rcases mem_dinsert hkt with rfl | hkt'
        · exact hid0
        · exact hids kt hkt'
  | @delete st st' b sv i _ hstep ih =>
    rcases ih with ⟨m, hL, hval, hids⟩
    rw [delete_task_eq i hL] at hstep
    by_cases hmem : i ∈ keys m
    · rw [if_pos hmem] at hstep
      simp only [Except.ok.injEq, Prod.mk.injEq] at hstep
      obtain ⟨-, hst', -⟩ := hstep
      subst hst'
      have hnd := load_nodup hL
      refine ⟨_, load_save _ (nodup_keys_derase _ hnd) ?_, ?_, ?_⟩
      · exact fun kt hkt => hval kt (mem_derase hkt)
      · exact fun kt hkt => hval kt (mem_derase hkt)
      · exact fun kt hkt => hids kt (mem_derase hkt)
    · rw [if_neg hmem] at hstep
      simp only [Except.ok.injEq, Prod.mk.injEq] at hstep
      obtain ⟨-, hst', -⟩ := hstep
      subst hst'
      exact ⟨m, hL, hval, hids⟩

/-- Create/markDone sequences are a special case of the full operation
set. -/
theorem reachCM_reachAll {st : FileState} (h : ReachCM st) : ReachAll st := by
  induction h with
  | init => exact .init
  | create _ hv hstep ih => exact .create ih hv hstep
  | markDone _ hstep ih => exact .markDone ih hstep

/-- C1: for every collection state, `create_task` assigns the new task the
id `max(existing ids) + 1` (1 when the collection is empty); consequently
an id strictly below some id still present in the collection can never be
the newly assigned one (so an id deleted while a higher id remains is never
reused), and the concrete scenario create "A", create "B", delete(1),
create "C" assigns ids 1, 2, 3 with the delete succeeding. -/
theorem C1_id_assignment (st : FileState) (m : TaskMap) (title : String)
    (p : Priority) (now : DateTime) (hL : JsonStorage.load st = .ok m) :
    (∃ t st', TaskRepository.create_task st title p now = .ok (t, st') ∧
        t.id = some (maxKey m + 1)) ∧
    (m = [] → maxKey m + 1 = 1) ∧
    (∀ d h', h' ∈ keys m → d < h' → maxKey m + 1 ≠ d) ∧
    c1Scenario = .ok (some 1, some 2, true, some 3) := by
  refine ⟨⟨_, _, create_task_eq title p now hL, rfl⟩, ?_, ?_, by rfl⟩
  · rintro rfl
    rfl
  · intro d h' hmem hlt heq
    have := le_maxKey hmem
    omega

theorem C1_id_assignment_witness :
    (∃ t st', TaskRepository.create_task .absent "W" .medium dt0
        = .ok (t, st') ∧ t.id = some (maxKey ([] : TaskMap) + 1)) ∧
    (([] : TaskMap) = [] → maxKey ([] : TaskMap) + 1 = 1) ∧
    (∀ d h', h' ∈ keys ([] : TaskMap) → d < h' →
        maxKey ([] : TaskMap) + 1 ≠ d) ∧
    c1Scenario = .ok (some 1, some 2, true, some 3) :=
  C1_id_assignment .absent [] "W" .medium dt0 rfl

/-- C2: `save` then `load` returns a collection equal to the original —
literally, hence field-for-field on every task under every key.  The
hypotheses are the data model: a Python dict has unique keys, and
`created_at` fields are Python datetimes. -/
theorem C2_roundtrip (m : TaskMap) (hnd : (keys m).Nodup)
    (hval : AllValid m) :
    ∃ m', JsonStorage.load (JsonStorage.save m) = .ok m' ∧ m' = m ∧
      ∀ k, dget m' k = dget m k :=
  ⟨m, load_save m hnd hval, rfl, fun _ => rfl⟩

theorem C2_roundtrip_witness :
    ∃ m', JsonStorage.load (JsonStorage.save m0) = .ok m' ∧ m' = m0 ∧
      ∀ k, dget m' k = dget m0 k :=
  C2_roundtrip m0 (by decide) (by decide)

/-- C3: `load` returns an empty collection (not an error) when the file is
absent or empty; propagates the parse error on malformed content; and fails
whenever one of the five required fields is missing from a stored task
object. -/
theorem C3_load_errors :
    (JsonStorage.load .absent = .ok []) ∧
    (JsonStorage.load (.present .emptyContent) = .ok []) ∧
    (JsonStorage.load (.present .malformed) = .error .jsonDecodeError) ∧
    (∀ (entries : List (String × Json)) (kstr : String)
        (fields : List (String × Json)) (fname : String),
      (kstr, Json.obj fields) ∈ entries → fname ∈ requiredFields →
      getField fields fname = none →
      ∃ e, JsonStorage.load (.present (.value (.obj entries)))
        = .error e) := by
  refine ⟨rfl, rfl, rfl, ?_⟩
  intro entries kstr fields fname hmem hreq hmiss
  show ∃ e, decodeEntries entries [] = .error e
  exact decodeEntries_error entries [] hmem (decodeTask_missing hreq hmiss)

theorem C3_load_errors_witness :
    (JsonStorage.load .absent = .ok []) ∧
    ∃ e, JsonStorage.load (.present (.value (.obj
      [("1", Json.obj [("id", Json.int 1)])]))) = .error e :=
  ⟨C3_load_errors.1,
   C3_load_errors.2.2.2 [("1", Json.obj [("id", Json.int 1)])] "1"
     [("id", Json.int 1)] "title" (List.mem_singleton.mpr rfl) (by decide)
     (by rfl)⟩

/-- C4 as written is false: both `update_task` failures raise the same
Python exception class.  At a concrete input, the unset-id failure and the
unknown-id failure are both `ValueError`s — the error kinds are equal, not
distinct; only the messages differ. -/
theorem C4_distinct_kinds_counterexample :
    TaskRepository.update_task .absent { title := "a", created_at := dt0 }
      = .error (.valueError "Task ID cannot be None") ∧
    TaskRepository.update_task .absent
        { title := "a", id := some 999, created_at := dt0 }
      = .error (.valueError "Task with ID 999 does not exist") ∧
    PyErr.kindName (.valueError "Task ID cannot be None")
      = PyErr.kindName (.valueError "Task with ID 999 does not exist") :=
  ⟨rfl, by rfl, rfl⟩

/-- C4 (amended): `update_task` fails with a `ValueError` reading "Task ID
cannot be None" when the id is unset, fails with a `ValueError` reading
"Task with ID {id} does not exist" — the same exception kind, distinguished
only by its message — when the id is set but absent, and otherwise replaces
the stored task wholesale with the given value, persists, and returns it. -/
theorem C4_update_errors (st : FileState) (m : TaskMap) (task : Task)
    (hL : JsonStorage.load st = .ok m) :
    (task.id = none → TaskRepository.update_task st task
        = .error (.valueError "Task ID cannot be None")) ∧
    (∀ tid, task.id = some tid → tid ∉ keys m →
      TaskRepository.update_task st task
        = .error (.valueError ("Task with ID " ++ toString tid
            ++ " does not exist")) ∧
      PyErr.kindName (.valueError ("Task with ID " ++ toString tid
            ++ " does not exist"))
        = PyErr.kindName (.valueError "Task ID cannot be None")) ∧
    (∀ tid, task.id = some tid → tid ∈ keys m →
      TaskRepository.update_task st task
        = .ok (task, JsonStorage.save (dinsert m tid task)) ∧
      dget (dinsert m tid task) tid = some task ∧
      ∀ k, k ≠ tid → dget (dinsert m tid task) k = dget m k) := by
  refine ⟨fun hid => update_task_none hid, ?_, ?_⟩
  · intro tid hid hmem
    exact ⟨by rw [update_task_eq hL hid, if_neg hmem], rfl⟩
  · intro tid hid hmem
    exact ⟨by rw [update_task_eq hL hid, if_pos hmem],
      dget_dinsert_self m tid task,
      fun k hk => dget_dinsert_ne m task hk⟩

theorem C4_update_errors_witness :
    TaskRepository.update_task (JsonStorage.save m0) taskC
      = .ok (taskC, JsonStorage.save (dinsert m0 1 taskC)) :=
  ((C4_update_errors (JsonStorage.save m0) m0 taskC (by rfl)).2.2 1 rfl
    (by decide)).1

/-- C5: `mark_done` is idempotent.  For an id present in the collection
(which, per the data model, stores each task under its own id and holds
Python datetimes), the first call returns the task with status done, and a
second call succeeds, returns a task with status done again, and leaves the
storage state exactly as after the first call; for an absent id it returns
`none` without error and without touching the state. -/
theorem C5_markDone_idempotent (st : FileState) (m : TaskMap) (i : Int)
    (hL : JsonStorage.load st = .ok m) (hids : IdsMatch m)
    (hval : AllValid m) :
    (dget m i = none → TaskRepository.mark_done st i = .ok (none, st)) ∧
    (∀ t, dget m i = some t →
      ∃ st', TaskRepository.mark_done st i
          = .ok (some { t with status := .done }, st') ∧
        ({ t with status := .done } : Task).status = .done ∧
        TaskRepository.mark_done st' i
          = .ok (some { t with status := .done }, st')) := by
  constructor
  · intro hget
    exact mark_done_none i hL hget
  · intro t hget
    have hid1 : ({ t with status := .done } : Task).id = some i :=
      hids (i, t) (mem_of_dget hget)
    have hmem : i ∈ keys m := mem_keys_of_dget hget
    have hnd := load_nodup hL
    have h1 : TaskRepository.mark_done st i
        = .ok (some { t with status := .done },
               JsonStorage.save (dinsert m i { t with status := .done })) := by
      rw [mark_done_some hL hget, update_task_eq hL hid1, if_pos hmem]
    have hnd1 : (keys (dinsert m i { t with status := .done })).Nodup :=
      nodup_keys_dinsert _ _ hnd
    have hval1 : AllValid (dinsert m i { t with status := .done }) := by
      intro kt hkt
      rcases mem_dinsert hkt with rfl | hkt'
      · exact hval (i, t) (mem_of_dget hget)
      · exact hval kt hkt'
    have hL1 : JsonStorage.load
          (JsonStorage.save (dinsert m i { t with status := .done }))
        = .ok (dinsert m i { t with status := .done }) :=
      load_save _ hnd1 hval1
    have hget1 : dget (dinsert m i { t with status := .done }) i
        = some { t with status := .done } := dget_dinsert_self m i _
    have hmem1 : i ∈ keys (dinsert m i { t with status := .done }) :=
      mem_keys_of_dget hget1
    have heq : ({ ({ t with status := .done } : Task) with
        status := .done } : Task) = { t with status := .done } := rfl
    have h2 : TaskRepository.mark_done
          (JsonStorage.save (dinsert m i { t with status := .done })) i
        = .ok (some { t with status := .done },
               JsonStorage.save (dinsert m i { t with status := .done })) := by
      rw [mark_done_some hL1 hget1, heq, update_task_eq hL1 hid1,
        if_pos hmem1, dinsert_eq_self hnd1 hget1]
    exact ⟨_, h1, rfl, h2⟩

theorem C5_markDone_idempotent_witness :
    ∃ st', TaskRepository.mark_done (JsonStorage.save m0) 1
        = .ok (some { taskA with status := .done }, st') ∧
      ({ taskA with status := .done } : Task).status = .done ∧
      TaskRepository.mark_done st' 1
        = .ok (some { taskA with status := .done }, st') :=
  (C5_markDone_idempotent (JsonStorage.save m0) m0 1 (by rfl) (by decide)
    (by decide)).2 taskA (by rfl)

/-- C6: for every collection state (stored, per the data model, under its
own ids) and every optional status filter, `get_all_tasks` returns exactly
the tasks matching the filter, in strictly ascending id order, and the
empty result is a normal `.ok` outcome. -/
theorem C6_list_filter_sorted (st : FileState) (m : TaskMap)
    (f : Option Status) (hL : JsonStorage.load st = .ok m)
    (hids : IdsMatch m) :
    ∃ l, TaskRepository.get_all_tasks st f = .ok l ∧
      (∀ t, t ∈ l ↔ ∃ k, (k, t) ∈ m ∧ statusMatches f t) ∧
      l.Pairwise (fun a b => ∃ i j, a.id = some i ∧ b.id = some j ∧ i < j) :=
  ⟨listOf f m, get_all_tasks_eq f hL,
   fun _ => mem_listOf (load_nodup hL),
   pairwise_listOf f (load_nodup hL) hids⟩

theorem C6_list_filter_sorted_witness :
    ∃ l, TaskRepository.get_all_tasks (JsonStorage.save m0) (some .pending)
        = .ok l ∧
      (∀ t, t ∈ l ↔ ∃ k, (k, t) ∈ m0 ∧ statusMatches (some .pending) t) ∧
      l.Pairwise (fun a b => ∃ i j, a.id = some i ∧ b.id = some j ∧ i < j) :=
  C6_list_filter_sorted (JsonStorage.save m0) m0 (some .pending) (by rfl)
    (by decide)

/-- C7: in every state reachable by `create_task` / `mark_done` calls, the
pending and done listings are disjoint and together are exactly the
unfiltered listing. -/
theorem C7_filter_partition (st : FileState) (h : ReachCM st) :
    ∃ la lp ld,
      TaskRepository.get_all_tasks st none = .ok la ∧
      TaskRepository.get_all_tasks st (some .pending) = .ok lp ∧
      TaskRepository.get_all_tasks st (some .done) = .ok ld ∧
      (∀ t, t ∈ la ↔ t ∈ lp ∨ t ∈ ld) ∧
      (∀ t, t ∈ lp → t ∉ ld) := by
  obtain ⟨m, hL, -, -⟩ := reachAll_inv (reachCM_reachAll h)
  have hnd := load_nodup hL
  refine ⟨listOf none m, listOf (some .pending) m, listOf (some .done) m,
    get_all_tasks_eq none hL, get_all_tasks_eq (some .pending) hL,
    get_all_tasks_eq (some .done) hL, ?_, ?_⟩
  · intro t
    rw [mem_listOf hnd, mem_listOf hnd, mem_listOf hnd]
    constructor
    · rintro ⟨k, hkt, -⟩
      cases hstatus : t.status
      · exact Or.inl ⟨k, hkt, hstatus⟩
      · exact Or.inr ⟨k, hkt, hstatus⟩
    · rintro (⟨k, hkt, -⟩ | ⟨k, hkt, -⟩) <;> exact ⟨k, hkt, trivial⟩
  · intro t hp hd
    rw [mem_listOf hnd] at hp hd
    rcases hp with ⟨k, hkt, hpm⟩
    rcases hd with ⟨k', hkt', hdm⟩
    have hp' : t.status = .pending := hpm
    have hd' : t.status = .done := hdm
    rw [hp'] at hd'
    exact Status.noConfusion hd'

theorem C7_filter_partition_witness :
    ∃ la lp ld,
      TaskRepository.get_all_tasks .absent none = .ok la ∧
      TaskRepository.get_all_tasks .absent (some .pending) = .ok lp ∧
      TaskRepository.get_all_tasks .absent (some .done) = .ok ld ∧
      (∀ t, t ∈ la ↔ t ∈ lp ∨ t ∈ ld) ∧
      (∀ t, t ∈ lp → t ∉ ld) :=
  C7_filter_partition .absent ReachCM.init

/-- C8: deleting an absent id returns `false`, leaves the storage state
untouched and performs no save (last component `false`); deleting a present
id returns `true`, removes exactly that entry and persists the result. -/
theorem C8_delete_semantics (st : FileState) (m : TaskMap) (i : Int)
    (hL : JsonStorage.load st = .ok m) :
    (i ∉ keys m → TaskRepository.delete_task st i = .ok (false, st, false)) ∧
    (i ∈ keys m →
      TaskRepository.delete_task st i
        = .ok (true, JsonStorage.save (derase m i), true) ∧
      dget (derase m i) i = none ∧
      ∀ k, k ≠ i → dget (derase m i) k = dget m k) := by
  have hnd := load_nodup hL
  constructor
  · intro hmem
    rw [delete_task_eq i hL, if_neg hmem]
  · intro hmem
    exact ⟨by rw [delete_task_eq i hL, if_pos hmem],
      dget_derase_self hnd,
      fun k hk => dget_derase_ne m hk⟩

theorem C8_delete_semantics_witness :
    TaskRepository.delete_task (JsonStorage.save m0) 5
      = .ok (false, JsonStorage.save m0, false) :=
  (C8_delete_semantics (JsonStorage.save m0) m0 5 (by rfl)).1 (by decide)

/-- C9: in every storage state reachable through `create_task`,
`update_task`, `mark_done` and `delete_task`, the loaded collection keys
each task by that task's own id field. -/
theorem C9_keys_match_ids (st : FileState) (h : ReachAll st) (m : TaskMap)
    (hL : JsonStorage.load st = .ok m) : IdsMatch m := by
  obtain ⟨m', hL', -, hids⟩ := reachAll_inv h
  rw [hL] at hL'
  cases hL'
  exact hids

theorem C9_keys_match_ids_witness : IdsMatch ([] : TaskMap) :=
  C9_keys_match_ids .absent ReachAll.init [] rfl

end TaskCli
